import Mathlib

/- Verification of the ISSSort event-building specification against the
   repository sources.  Reaction.hh / Reaction.cc / Histogrammer.cc are
   embedded directly from the source.  The Window Assembler, Array Finder
   and MWPC Finder live in EventBuilder.cc, whose implementation is not in
   the source tree (only EventBuilder.hh declarations are); those parts are
   modelled from the specification text, as marked on each definition. -/

/-- Detector class of a hit: ASIC-like, CAEN-like or INFO
    (see ISSEventBuilder doc comment in EventBuilder.hh). -/
inductive DType where
  | asic : DType
  | caen : DType
  | info : DType
deriving DecidableEq, Repr

/-- Modelled from the spec: a calibrated hit of the input stream, with its
    detector class, corrected time (ns) and above-threshold flag
    (spec section 3, Hit / CalibratedHit). -/
structure Hit where
  dtype : DType
  time : ℤ
  thres : Bool
deriving DecidableEq, Repr

/-- Modelled from the spec: a closed event window, with window_start and its
    ordered hits (spec section 3, Window). -/
structure Window where
  wstart : ℤ
  whits : List Hit
deriving DecidableEq, Repr

/-- Modelled from the spec: the Window Assembler state carried across the
    feed loop: the open window (start time and hits), the closed windows
    already emitted, the Timing Tracker scalar state touched by INFO hits,
    and the dropped-hit anomaly counter (spec sections 4.1 and 4.2). -/
structure WinState where
  openStart : Option ℤ
  openHits : List Hit
  closed : List Window
  timing : ℤ
  dropped : Nat
deriving DecidableEq, Repr

/-- Modelled from the spec: the Feed operation of the Window Assembler
    (spec section 4.1).  INFO hits only update Timing Tracker state; hits
    below threshold are dropped; an above-threshold amplitude hit opens a
    window when none is open, is appended while within the bound
    window_start + build_window, closes-then-opens past the bound, and a
    corrected time moving backward beyond the tolerance is counted and
    dropped. -/
def feed (bw tol : ℤ) (s : WinState) (h : Hit) : WinState :=
  if h.dtype = DType.info then
    { s with timing := h.time }
  else if h.thres = false then s
  else
    match s.openStart with
    | none => { s with openStart := some h.time, openHits := [h] }
    | some st =>
      if st + bw < h.time then
        { s with openStart := some h.time, openHits := [h],
                 closed := s.closed ++ [Window.mk st s.openHits] }
      else if h.time < st - tol then
        { s with dropped := s.dropped + 1 }
      else
        { s with openHits := s.openHits ++ [h] }

/-- Modelled from the spec: end-of-stream closure of any still-open window
    (spec sections 3 and 4.1). -/
def flushWin (s : WinState) : WinState :=
  match s.openStart with
  | none => s
  | some st =>
    { s with openStart := none, openHits := [],
             closed := s.closed ++ [Window.mk st s.openHits] }

/-- Modelled from the spec: the boundary decision for the buffered hit,
    taken after observing the next hit's corrected time: the open window is
    closed exactly when the peeked hit is a qualifying (non-INFO,
    above-threshold) hit whose corrected time exceeds the bound
    (spec sections 4.1 and 9). -/
def peekClose (bw : ℤ) (s : WinState) (n : Hit) : WinState :=
  match s.openStart with
  | none => s
  | some st =>
    if n.dtype ≠ DType.info ∧ n.thres = true ∧ st + bw < n.time then
      WinState.mk none [] (s.closed ++ [Window.mk st s.openHits]) s.timing s.dropped
    else s

/-- Modelled from the spec: one iteration of the feed loop with one-hit
    lookahead: the buffered hit c is fed, then the close decision for it is
    made from the peeked next hit n (spec section 4.1). -/
def feedPeek (bw tol : ℤ) (s : WinState) (c n : Hit) : WinState :=
  peekClose bw (feed bw tol s c) n

/-- Modelled from the spec: the full feed loop of the Window Assembler with
    its single pending-hit buffer (the head of the suffix still to be read):
    each step consumes the buffered hit together with a peek at the next
    one, and the end of the stream flushes any still-open window
    (spec sections 4.1, 5 and 9). -/
def runLA (bw tol : ℤ) (s : WinState) : List Hit → WinState
  | [] => flushWin s
  | [c] => flushWin (feed bw tol s c)
  | c :: n :: rest => runLA bw tol (feedPeek bw tol s c n) (n :: rest)

/-- Modelled from the spec: the initial assembler state of a pass, with the
    given initial Timing Tracker scalar and anomaly counter. -/
def initState (t : ℤ) (d : Nat) : WinState :=
  WinState.mk none [] [] t d

/-- Modelled from the spec: BuildEvents, the sequence of closed windows
    produced by one pass of the Window Assembler over the sorted hit list
    (ISSEventBuilder::BuildEvents, implementation not in src). -/
def buildEvents (bw tol : ℤ) (hits : List Hit) : List Window :=
  (runLA bw tol (initState 0 0) hits).closed

/-- Invariant of the assembler state: every hit of every closed window, and
    every hit of the open window, lies within build_window of the window
    start (spec section 3, Window invariant). -/
def WInv (bw : ℤ) (s : WinState) : Prop :=
  (∀ w ∈ s.closed, ∀ h ∈ w.whits, |h.time - w.wstart| ≤ bw) ∧
  (∀ st, s.openStart = some st → ∀ h ∈ s.openHits, |h.time - st| ≤ bw)

theorem peekClose_feed (bw tol : ℤ) (s : WinState) (n : Hit) :
    feed bw tol (peekClose bw s n) n = feed bw tol s n := by
  obtain ⟨os, oh, cl, tm, dr⟩ := s
  cases os with
  | none => rfl
  | some st =>
    by_cases hc : n.dtype ≠ DType.info ∧ n.thres = true ∧ st + bw < n.time
    · simp only [peekClose]
      rw [if_pos hc]
      simp [feed, hc.1, hc.2.1, hc.2.2]
    · simp only [peekClose]
      rw [if_neg hc]

theorem runLA_eq_foldl (bw tol : ℤ) :
    ∀ (l : List Hit) (s : WinState),
      runLA bw tol s l = flushWin (List.foldl (feed bw tol) s l) := by
  intro l
  induction l with
  | nil => intro s; rfl
  | cons c rest ih =>
    intro s
    cases rest with
    | nil => rfl
    | cons n rest2 =>
      show runLA bw tol (feedPeek bw tol s c n) (n :: rest2) = _
      rw [ih (feedPeek bw tol s c n)]
      simp only [List.foldl_cons]
      rw [show List.foldl (feed bw tol) (feed bw tol (feedPeek bw tol s c n) n) rest2
            = List.foldl (feed bw tol) (feed bw tol (feed bw tol s c) n) rest2 from by
        rw [feedPeek, peekClose_feed]]

theorem initState_winv (bw : ℤ) (t : ℤ) (d : Nat) : WInv bw (initState t d) := by
  constructor
  · intro w hw; simp [initState] at hw
  · intro st hst; simp [initState] at hst

theorem feed_winv (bw tol : ℤ) (h0 : 0 ≤ tol) (h1 : tol ≤ bw)
    (s : WinState) (h : Hit) (hs : WInv bw s) : WInv bw (feed bw tol s h) := by
  obtain ⟨hc, ho⟩ := hs
  have hbw : 0 ≤ bw := le_trans h0 h1
  by_cases hi : h.dtype = DType.info
  · simp only [feed, if_pos hi]; exact ⟨hc, ho⟩
  · by_cases ht : h.thres = false
    · simp only [feed, if_neg hi, if_pos ht]; exact ⟨hc, ho⟩
    · cases hos : s.openStart with
      | none =>
        simp only [feed, if_neg hi, if_neg ht, hos]
        refine ⟨hc, ?_⟩
        intro st hst hh hmem
        have hst2 : h.time = st := Option.some.inj hst
        subst hst2
        have : hh = h := by simpa using hmem
        subst this
        simpa using hbw
      | some st =>
        by_cases hgt : st + bw < h.time
        · simp only [feed, if_neg hi, if_neg ht, hos, if_pos hgt]
          constructor
          · intro w hw hh hmem
            rcases List.mem_append.mp hw with hw2 | hw2
            · exact hc w hw2 hh hmem
            · have hw3 : w = Window.mk st s.openHits := by simpa using hw2
              subst hw3
              exact ho st hos hh hmem
          · intro st2 hst2 hh hmem
            have hst3 : h.time = st2 := Option.some.inj hst2
            subst hst3
            have : hh = h := by simpa using hmem
            subst this
            simpa using hbw
        · by_cases hlt : h.time < st - tol
          · simp only [feed, if_neg hi, if_neg ht, hos, if_neg hgt, if_pos hlt]
            refine ⟨hc, ?_⟩
            intro st2 hst2 hh hmem
            have hst3 : st = st2 := Option.some.inj hst2
            subst hst3
            exact ho st hos hh hmem
          · simp only [feed, if_neg hi, if_neg ht, hos, if_neg hgt, if_neg hlt]
            refine ⟨hc, ?_⟩
            intro st2 hst2 hh hmem
            have hst3 : st = st2 := Option.some.inj hst2
            subst hst3
            rcases List.mem_append.mp hmem with hm | hm
            · exact ho st hos hh hm
            · have heq : hh = h := by simpa using hm
              rw [heq]
              have hA : h.time ≤ st + bw := not_lt.mp hgt
              have hB : st - tol ≤ h.time := not_lt.mp hlt
              rw [abs_le]
              constructor <;> linarith

theorem flushWin_winv (bw : ℤ) (s : WinState) (hs : WInv bw s) :
    WInv bw (flushWin s) := by
  obtain ⟨hc, ho⟩ := hs
  cases hos : s.openStart with
  | none => simp only [flushWin, hos]; exact ⟨hc, ho⟩
  | some st =>
    simp only [flushWin, hos]
    constructor
    · intro w hw hh hmem
      rcases List.mem_append.mp hw with hw2 | hw2
      · exact hc w hw2 hh hmem
      · have hw3 : w = Window.mk st s.openHits := by simpa using hw2
        subst hw3
        exact ho st hos hh hmem
    · intro st2 hst2
      simp at hst2

theorem foldl_winv (bw tol : ℤ) (h0 : 0 ≤ tol) (h1 : tol ≤ bw) :
    ∀ (l : List Hit) (s : WinState), WInv bw s →
      WInv bw (List.foldl (feed bw tol) s l) := by
  intro l
  induction l with
  | nil => intro s hs; exact hs
  | cons c rest ih =>
    intro s hs
    exact ih (feed bw tol s c) (feed_winv bw tol h0 h1 s c hs)

theorem flushWin_openStart (s : WinState) : (flushWin s).openStart = none := by
  cases hos : s.openStart with
  | none => simp only [flushWin, hos]
  | some st => simp only [flushWin, hos]

theorem feed_closed_mono (bw tol : ℤ) (s : WinState) (h : Hit) :
    ∃ t, (feed bw tol s h).closed = s.closed ++ t := by
  by_cases hi : h.dtype = DType.info
  · exact ⟨[], by simp [feed, hi]⟩
  · by_cases ht : h.thres = false
    · exact ⟨[], by simp [feed, hi, ht]⟩
    · cases hos : s.openStart with
      | none => exact ⟨[], by simp [feed, hi, ht, hos]⟩
      | some st =>
        by_cases hgt : st + bw < h.time
        · exact ⟨[Window.mk st s.openHits], by simp [feed, hi, ht, hos, hgt]⟩
        · by_cases hlt : h.time < st - tol
          · exact ⟨[], by simp [feed, hi, ht, hos, hgt, hlt]⟩
          · exact ⟨[], by simp [feed, hi, ht, hos, hgt, hlt]⟩

theorem flushWin_closed_mono (s : WinState) :
    ∃ t, (flushWin s).closed = s.closed ++ t := by
  cases hos : s.openStart with
  | none => exact ⟨[], by simp [flushWin, hos]⟩
  | some st => exact ⟨[Window.mk st s.openHits], by simp [flushWin, hos]⟩

/-- C1: for every closed window W emitted by the assembler and every hit h
    contained in W, |corrected_time(h) − window_start(W)| ≤ build_window;
    and a window is immutable once closed: every assembler step (feed and
    the end-of-stream flush) only ever appends to the list of closed
    windows, never altering an already-closed one. -/
theorem build_window_invariant (bw tol : ℤ) (h0 : 0 ≤ tol) (h1 : tol ≤ bw)
    (hits : List Hit) :
    (∀ w ∈ buildEvents bw tol hits, ∀ h ∈ w.whits, |h.time - w.wstart| ≤ bw) ∧
    (∀ (s : WinState) (c : Hit), ∃ t, (feed bw tol s c).closed = s.closed ++ t) ∧
    (∀ s : WinState, ∃ t, (flushWin s).closed = s.closed ++ t) := by
  refine ⟨?_, feed_closed_mono bw tol, flushWin_closed_mono⟩
  intro w hw h hh
  have hinv : WInv bw (runLA bw tol (initState 0 0) hits) := by
    rw [runLA_eq_foldl]
    exact flushWin_winv bw _
      (foldl_winv bw tol h0 h1 hits (initState 0 0) (initState_winv bw 0 0))
  exact hinv.1 w hw h hh

/-- Concrete instance of the build-window invariant: a single ASIC hit at
    100 ns with bw = 3000, tol = 0 yields one window starting at 100
    containing it, within the bound. -/
theorem build_window_invariant_check :
    (0:ℤ) ≤ 0 ∧ (0:ℤ) ≤ 3000 ∧
      |(Hit.mk DType.asic 100 true).time - (Window.mk 100 [Hit.mk DType.asic 100 true]).wstart| ≤ 3000 := by
  refine ⟨le_refl 0, by norm_num, ?_⟩
  exact (build_window_invariant 3000 0 (le_refl 0) (by norm_num)
      [Hit.mk DType.asic 100 true]).1
    (Window.mk 100 [Hit.mk DType.asic 100 true]) (by decide)
    (Hit.mk DType.asic 100 true) (by decide)

/-- C2: the Window Assembler feed loop carries exactly one pending hit (the
    single buffered hit of each runLA step); the close decision for the
    buffered hit is made only from the peeked next hit (feedPeek), and the
    loop with lookahead computes exactly the fold of the Feed operation
    followed by the end-of-stream flush; end of stream always forces closure
    of any still-open window (the final state has no open window). -/
theorem lookahead_loop_spec (bw tol : ℤ) (s : WinState) (l : List Hit) :
    (runLA bw tol s l).openStart = none ∧
    runLA bw tol s l = flushWin (List.foldl (feed bw tol) s l) := by
  refine ⟨?_, runLA_eq_foldl bw tol l s⟩
  rw [runLA_eq_foldl]
  exact flushWin_openStart _

/-- C5: an INFO hit never opens a window, never closes one, and only
    updates the Timing Tracker state; an INFO hit seen by the lookahead
    never forces the open window to close; and a window can only be opened
    by a non-INFO, above-threshold hit, at that hit's corrected time. -/
theorem info_hits_passive (bw tol : ℤ) (s : WinState) (h c n : Hit) :
    (h.dtype = DType.info →
      (feed bw tol s h).openStart = s.openStart ∧
      (feed bw tol s h).openHits = s.openHits ∧
      (feed bw tol s h).closed = s.closed ∧
      (feed bw tol s h).timing = h.time) ∧
    (n.dtype = DType.info → feedPeek bw tol s c n = feed bw tol s c) ∧
    (s.openStart = none → ∀ t, (feed bw tol s h).openStart = some t →
      h.dtype ≠ DType.info ∧ h.thres = true ∧ t = h.time) := by
  refine ⟨?_, ?_, ?_⟩
  · intro hi
    simp [feed, hi]
  · intro hi
    unfold feedPeek peekClose
    cases hos : (feed bw tol s c).openStart with
    | none => rfl
    | some st =>
      exact if_neg (fun hcond => hcond.1 hi)
  · intro hnone t hsome
    by_cases hi : h.dtype = DType.info
    · simp [feed, hi, hnone] at hsome
    · by_cases ht : h.thres = false
      · simp only [feed, if_neg hi, if_pos ht] at hsome
        rw [hnone] at hsome
        cases hsome
      · refine ⟨hi, ?_, ?_⟩
        · cases hb : h.thres with
          | false => exact absurd hb ht
          | true => rfl
        · simp only [feed, if_neg hi, if_neg ht, hnone] at hsome
          exact (Option.some.inj hsome).symm

/-- Concrete instance: feeding an INFO hit at time 7 to the fresh assembler
    leaves the window state untouched and records the time in the Timing
    Tracker state. -/
theorem info_hits_passive_check :
    (feed 3000 0 (initState 0 0) (Hit.mk DType.info 7 true)).openStart
        = (initState 0 0).openStart ∧
    (feed 3000 0 (initState 0 0) (Hit.mk DType.info 7 true)).openHits
        = (initState 0 0).openHits ∧
    (feed 3000 0 (initState 0 0) (Hit.mk DType.info 7 true)).closed
        = (initState 0 0).closed ∧
    (feed 3000 0 (initState 0 0) (Hit.mk DType.info 7 true)).timing
        = (Hit.mk DType.info 7 true).time :=
  (info_hits_passive 3000 0 (initState 0 0) (Hit.mk DType.info 7 true)
    (Hit.mk DType.asic 0 true) (Hit.mk DType.asic 0 true)).1 rfl

/-- Projection of the assembler state onto the fields that determine the
    emitted windows: open window and closed list; the Timing Tracker scalar
    and the anomaly counter are bookkeeping only. -/
def projWS (s : WinState) : Option ℤ × List Hit × List Window :=
  (s.openStart, s.openHits, s.closed)

theorem feed_proj (bw tol : ℤ) (s1 s2 : WinState) (h : Hit)
    (hp : projWS s1 = projWS s2) :
    projWS (feed bw tol s1 h) = projWS (feed bw tol s2 h) := by
  obtain ⟨o1, l1, c1, t1, d1⟩ := s1
  obtain ⟨o2, l2, c2, t2, d2⟩ := s2
  simp only [projWS, Prod.mk.injEq] at hp
  obtain ⟨rfl, rfl, rfl⟩ := hp
  by_cases hi : h.dtype = DType.info
  · simp [feed, hi, projWS]
  · by_cases ht : h.thres = false
    · simp [feed, hi, ht, projWS]
    · cases o1 with
      | none => simp [feed, hi, ht, projWS]
      | some st =>
        by_cases hgt : st + bw < h.time
        · simp [feed, hi, ht, hgt, projWS]
        · by_cases hlt : h.time < st - tol
          · simp [feed, hi, ht, hgt, hlt, projWS]
          · simp [feed, hi, ht, hgt, hlt, projWS]

theorem foldl_proj (bw tol : ℤ) :
    ∀ (l : List Hit) (s1 s2 : WinState), projWS s1 = projWS s2 →
      projWS (List.foldl (feed bw tol) s1 l)
        = projWS (List.foldl (feed bw tol) s2 l) := by
  intro l
  induction l with
  | nil => intro s1 s2 hp; exact hp
  | cons c rest ih =>
    intro s1 s2 hp
    exact ih (feed bw tol s1 c) (feed bw tol s2 c) (feed_proj bw tol s1 s2 c hp)

theorem flushWin_proj (s1 s2 : WinState) (hp : projWS s1 = projWS s2) :
    projWS (flushWin s1) = projWS (flushWin s2) := by
  obtain ⟨o1, l1, c1, t1, d1⟩ := s1
  obtain ⟨o2, l2, c2, t2, d2⟩ := s2
  simp only [projWS, Prod.mk.injEq] at hp
  obtain ⟨rfl, rfl, rfl⟩ := hp
  cases o1 with
  | none => rfl
  | some st => simp [flushWin, projWS]

/-- C7: event building is deterministic and depends on no hidden per-run
    state: a pass started from any initial Timing Tracker scalar and any
    initial anomaly counter (the only per-run mutable bookkeeping of the
    model) emits exactly the window sequence buildEvents of the input, so
    two runs over identical sorted input and configuration produce
    identical event sequences. -/
theorem event_building_deterministic (bw tol : ℤ) (hits : List Hit)
    (t : ℤ) (d : Nat) :
    (runLA bw tol (initState t d) hits).closed = buildEvents bw tol hits := by
  have hp : projWS (runLA bw tol (initState t d) hits)
      = projWS (runLA bw tol (initState 0 0) hits) := by
    rw [runLA_eq_foldl, runLA_eq_foldl]
    exact flushWin_proj _ _
      (foldl_proj bw tol hits (initState t d) (initState 0 0) rfl)
  exact congrArg (fun p => p.2.2) hp

/-- Modelled from the spec: one side hit of the silicon array, after strip
    lookup and addback, with its module, strip id, energy and corrected
    time (spec section 4.3, Array Finder; ISSEventBuilder::ArrayFinder
    implementation not in src). -/
structure AHit where
  amod : Nat
  strip : Nat
  energy : ℚ
  atime : ℤ
deriving DecidableEq, Repr

/-- Modelled from the spec: a 1p1n array sub-event: one p-side hit paired
    with one n-side hit (spec section 4.3, Array Finder). -/
structure ArraySub where
  pside : AHit
  nside : AHit
deriving DecidableEq, Repr

/-- Modelled from the spec: the n-side hit on the same module as p with the
    smallest absolute time difference to p, ties resolved in favour of the
    earlier list entry (the tie-break policy is an explicit choice, spec
    section 9). -/
def bestN (p : AHit) : List AHit → Option AHit
  | [] => none
  | n :: rest =>
    match bestN p rest with
    | none => if n.amod = p.amod then some n else none
    | some m =>
      if n.amod = p.amod ∧ |n.atime - p.atime| ≤ |m.atime - p.atime| then some n
      else some m

/-- Modelled from the spec: the pairing stage of the Array Finder: each
    p-side hit is paired with the n-side hit of smallest absolute time
    difference on the same module, and the pair is kept only when that time
    difference is within the prompt window (spec section 4.3, Array
    Finder). -/
def ArrayFinder (prompt : ℤ) (ps ns : List AHit) : List ArraySub :=
  ps.filterMap (fun p =>
    match bestN p ns with
    | none => none
    | some n =>
      if |n.atime - p.atime| ≤ prompt then some (ArraySub.mk p n) else none)

theorem bestN_none (p : AHit) :
    ∀ l, bestN p l = none → ∀ n ∈ l, n.amod ≠ p.amod := by
  intro l
  induction l with
  | nil => intro _ n hn; cases hn
  | cons n rest ih =>
    intro hb x hx
    cases hr : bestN p rest with
    | none =>
      simp only [bestN, hr] at hb
      by_cases hm : n.amod = p.amod
      · rw [if_pos hm] at hb; cases hb
      · rcases List.mem_cons.mp hx with rfl | hx
        · exact hm
        · exact ih hr x hx
    | some m =>
      simp only [bestN, hr] at hb
      split at hb <;> cases hb

theorem bestN_some (p : AHit) :
    ∀ l m, bestN p l = some m →
      m ∈ l ∧ m.amod = p.amod ∧
      ∀ n ∈ l, n.amod = p.amod →
        |m.atime - p.atime| ≤ |n.atime - p.atime| := by
  intro l
  induction l with
  | nil => intro m hb; cases hb
  | cons n rest ih =>
    intro m hb
    cases hr : bestN p rest with
    | none =>
      simp only [bestN, hr] at hb
      by_cases hm : n.amod = p.amod
      · rw [if_pos hm] at hb
        have hmn : n = m := Option.some.inj hb
        subst hmn
        refine ⟨List.mem_cons_self n rest, hm, ?_⟩
        intro x hx hxm
        rcases List.mem_cons.mp hx with rfl | hx
        · exact le_refl _
        · exact absurd hxm (bestN_none p rest hr x hx)
      · rw [if_neg hm] at hb; cases hb
    | some m2 =>
      simp only [bestN, hr] at hb
      obtain ⟨hm2mem, hm2mod, hm2min⟩ := ih m2 hr
      by_cases hc : n.amod = p.amod ∧ |n.atime - p.atime| ≤ |m2.atime - p.atime|
      · rw [if_pos hc] at hb
        have hmn : n = m := Option.some.inj hb
        subst hmn
        refine ⟨List.mem_cons_self n rest, hc.1, ?_⟩
        intro x hx hxm
        rcases List.mem_cons.mp hx with rfl | hx
        · exact le_refl _
        · exact le_trans hc.2 (hm2min x hx hxm)
      · rw [if_neg hc] at hb
        have hmn : m2 = m := Option.some.inj hb
        subst hmn
        refine ⟨List.mem_cons_of_mem n hm2mem, hm2mod, ?_⟩
        intro x hx hxm
        rcases List.mem_cons.mp hx with hxe | hx
        · rw [hxe] at hxm ⊢
          have hnle : ¬ |n.atime - p.atime| ≤ |m2.atime - p.atime| := by
            intro hle; exact hc ⟨hxm, hle⟩
          exact le_of_lt (lt_of_not_le hnle)
        · exact hm2min x hx hxm

/-- Example p-side hit at t = 0 ns, module 0 (spec section 8 test case). -/
def pEx1 : AHit := AHit.mk 0 0 1 0

/-- Example p-side hit at t = 1000 ns, module 0 (spec section 8 test case). -/
def pEx2 : AHit := AHit.mk 0 3 1 1000

/-- Example n-side hit at t = 5 ns, module 0 (spec section 8 test case). -/
def nEx1 : AHit := AHit.mk 0 1 1 5

/-- Example n-side hit at t = 1005 ns, module 0 (spec section 8 test case). -/
def nEx2 : AHit := AHit.mk 0 4 1 1005

/-- C3: every pair emitted by the Array Finder joins a p-side hit with the
    same-module n-side hit of smallest absolute time difference, accepted
    only when that difference is within the prompt window; and on p-hits at
    t = 0 and 1000 ns with n-hits at t = 5 and 1005 ns (prompt window
    300 ns) the finder emits exactly the two 1p1n sub-events 0↔5 and
    1000↔1005 — each element of the output is structurally a single
    p-side hit with a single n-side hit, so no 2p2n event can be formed. -/
theorem array_finder_pairing :
    (∀ (prompt : ℤ) (ps ns : List AHit) (e : ArraySub),
      e ∈ ArrayFinder prompt ps ns →
        e.pside ∈ ps ∧ e.nside ∈ ns ∧ e.nside.amod = e.pside.amod ∧
        |e.nside.atime - e.pside.atime| ≤ prompt ∧
        ∀ n ∈ ns, n.amod = e.pside.amod →
          |e.nside.atime - e.pside.atime| ≤ |n.atime - e.pside.atime|) ∧
    ArrayFinder 300 [pEx1, pEx2] [nEx1, nEx2]
      = [ArraySub.mk pEx1 nEx1, ArraySub.mk pEx2 nEx2] ∧
    (ArrayFinder 300 [pEx1, pEx2] [nEx1, nEx2]).length = 2 := by
  refine ⟨?_, by decide, by decide⟩
  intro prompt ps ns e he
  rw [ArrayFinder, List.mem_filterMap] at he
  obtain ⟨p, hp, hf⟩ := he
  cases hbn : bestN p ns with
  | none =>
    simp only [hbn] at hf
    exact Option.noConfusion hf
  | some n =>
    simp only [hbn] at hf
    by_cases hpr : |n.atime - p.atime| ≤ prompt
    · rw [if_pos hpr] at hf
      have he2 : ArraySub.mk p n = e := Option.some.inj hf
      subst he2
      obtain ⟨hmem, hmod, hmin⟩ := bestN_some p ns n hbn
      exact ⟨hp, hmem, hmod, hpr, hmin⟩
    · rw [if_neg hpr] at hf
      exact Option.noConfusion hf

/-- Concrete instance of the Array Finder pairing property: in the spec
    section 8 scenario the 0↔5 pair is at most as far apart in time as the
    alternative 0↔1005 pairing. -/
theorem array_finder_pairing_check :
    |nEx1.atime - pEx1.atime| ≤ |nEx2.atime - pEx1.atime| :=
  (array_finder_pairing.1 300 [pEx1, pEx2] [nEx1, nEx2]
      (ArraySub.mk pEx1 nEx1) (by decide)).2.2.2.2 nEx2 (by decide) (by decide)

/-- Modelled from the spec: a timing-amplitude (TAC) hit of the MWPC, with
    its axis, sector and amplitude (spec section 4.3, MWPC Finder;
    ISSEventBuilder::MwpcFinder implementation not in src). -/
structure MHit where
  axis : Nat
  sector : Nat
  amp : ℤ
deriving DecidableEq, Repr

/-- Modelled from the spec: an MWPC sub-event: either a position sub-event
    for one axis and sector, or a retained partial (single) hit with no
    position (spec section 4.3, MWPC Finder). -/
inductive MwpcSub where
  | posEvt : Nat → Nat → ℤ → MwpcSub
  | partEvt : MHit → MwpcSub
deriving DecidableEq, Repr

/-- Modelled from the spec: the hits of one axis-and-sector group of a
    closed window (spec section 4.3, MWPC Finder). -/
def mwpcGroup (axis sector : Nat) (hits : List MHit) : List MHit :=
  hits.filter (fun h => h.axis = axis ∧ h.sector = sector)

/-- Modelled from the spec: the MWPC Finder on one axis-and-sector group:
    multiplicity 2 yields one position sub-event whose position is the
    difference of the two amplitudes (proportionality constant taken as 1);
    multiplicity 1 is retained as a partial hit with no position
    (spec section 4.3, MWPC Finder). -/
def MwpcFinder (axis sector : Nat) (hits : List MHit) : List MwpcSub :=
  match mwpcGroup axis sector hits with
  | [h] => [MwpcSub.partEvt h]
  | [h1, h2] => [MwpcSub.posEvt axis sector (h2.amp - h1.amp)]
  | _ => []

/-- C4: in the MWPC Finder, an axis-and-sector group of multiplicity 2
    yields exactly one position sub-event whose position value is the
    difference of the two amplitudes (amplitudes 120 and 340 give position
    340 − 120 = 220), while multiplicity 1 yields one retained partial hit
    and no position sub-event. -/
theorem mwpc_finder_multiplicity :
    (∀ (axis sector : Nat) (hits : List MHit) (h1 h2 : MHit),
      mwpcGroup axis sector hits = [h1, h2] →
        MwpcFinder axis sector hits
          = [MwpcSub.posEvt axis sector (h2.amp - h1.amp)]) ∧
    (∀ (axis sector : Nat) (hits : List MHit) (h : MHit),
      mwpcGroup axis sector hits = [h] →
        MwpcFinder axis sector hits = [MwpcSub.partEvt h] ∧
        ∀ (a s : Nat) (v : ℤ),
          MwpcSub.posEvt a s v ∉ MwpcFinder axis sector hits) ∧
    MwpcFinder 0 1 [MHit.mk 0 1 120, MHit.mk 0 1 340]
      = [MwpcSub.posEvt 0 1 220] ∧
    MwpcFinder 0 1 [MHit.mk 0 1 120] = [MwpcSub.partEvt (MHit.mk 0 1 120)] := by
  refine ⟨?_, ?_, by decide, by decide⟩
  · intro axis sector hits h1 h2 hg
    rw [MwpcFinder, hg]
  · intro axis sector hits h hg
    constructor
    · rw [MwpcFinder, hg]
    · intro a s v hmem
      rw [MwpcFinder, hg] at hmem
      simp at hmem

/-- Concrete instance of the MWPC multiplicity-2 rule: the group made of
    the two amplitude-120 and amplitude-340 hits on axis 0, sector 1
    produces the single position sub-event with value 340 − 120. -/
theorem mwpc_finder_multiplicity_check :
    MwpcFinder 0 1 [MHit.mk 0 1 120, MHit.mk 0 1 340]
      = [MwpcSub.posEvt 0 1 ((MHit.mk 0 1 340).amp - (MHit.mk 0 1 120).amp)] :=
  mwpc_finder_multiplicity.1 0 1 [MHit.mk 0 1 120, MHit.mk 0 1 340]
    (MHit.mk 0 1 120) (MHit.mk 0 1 340) (by decide)

/-- Element symbols for each proton number, transcribed from the gElName
    vector in Reaction.hh; a proton number Z is recognised exactly when
    0 ≤ Z < gElName.size(). -/
def gElName : List String := [
  "n","H","He","Li","Be","B","C","N","O","F","Ne","Na","Mg",
  "Al","Si","P","S","Cl","Ar","K","Ca","Sc","Ti","V","Cr",
  "Mn","Fe","Co","Ni","Cu","Zn","Ga","Ge","As","Se","Br","Kr",
  "Rb","Sr","Y","Zr","Nb","Mo","Tc","Ru","Rh","Pd","Ag","Cd",
  "In","Sn","Sb","Te","I","Xe","Cs","Ba","La","Ce","Pr","Nd",
  "Pm","Sm","Eu","Gd","Tb","Dy","Ho","Er","Tm","Yb","Lu","Hf",
  "Ta","W","Re","Os","Ir","Pt","Au","Hg","Tl","Pb","Bi","Po",
  "At","Rn","Fr","Ra","Ac","Th","Pa","U","Np","Pu","Am","Cm",
  "Bk","Cf","Es","Fm","Md","No","Lr","Rf","Db","Sg","Bh","Hs",
  "Mt","Ds","Rg","Cn","Nh","Fl","Ms","Lv","Ts","Og","Uue","Ubn"]

/-- Configuration values read by ISSReaction::ReadReaction from the TEnv
    reaction file: the proton numbers of the four reaction partners, the
    array-recoil prompt and random window limits
    (ArrayRecoil_PromptTime.Min/Max, ArrayRecoil_RandomTime.Min/Max), and
    whether the optional recoil-cut file could be opened (a missing cut
    file is only warned about in the source, never fatal). -/
structure RConfig where
  beamZ : ℤ
  targetZ : ℤ
  ejectileZ : ℤ
  recoilZ : ℤ
  promptMin : ℚ
  promptMax : ℚ
  randomMin : ℚ
  randomMax : ℚ
  recoilCutFound : Bool

/-- The part of the ISSReaction state needed here: the two-element
    array_recoil_prompt and array_recoil_random arrays filled by
    ReadReaction (Reaction.cc lines 395-398). -/
structure Reaction where
  arrayRecoilPrompt : Fin 2 → ℚ
  arrayRecoilRandom : Fin 2 → ℚ

/-- The proton-number validity check of ISSReaction::ReadReaction
    (Reaction.cc, e.g. lines 267-273 for the beam): Z < 0 or
    Z ≥ gElName.size() prints an error and calls exit(1), modelled as
    Except.error. -/
def checkZ (z : ℤ) : Except Unit Unit :=
  if z < 0 ∨ (gElName.length : ℤ) ≤ z then Except.error () else Except.ok ()

/-- ISSReaction::ReadMassTables (Reaction.cc lines 181-245): an unreadable
    mass-table file (or one with no data start line) prints an error and
    calls exit(1), modelled as Except.error on a missing table; a readable
    table yields the isotope-key → binding-energy map. -/
def readMassTables (tbl : Option (String → ℚ)) : Except Unit (String → ℚ) :=
  match tbl with
  | none => Except.error ()
  | some t => Except.ok t

/-- ISSReaction::ReadReaction (Reaction.cc lines 251-479): checks the
    proton numbers of beam, target, ejectile and recoil in that order,
    exiting (Except.error) on the first unrecognised one; missing recoil cut
    files are tolerated; then fills the array-recoil prompt and random time
    windows from the configuration. -/
def readReaction (cfg : RConfig) : Except Unit Reaction :=
  match checkZ cfg.beamZ with
  | Except.error e => Except.error e
  | Except.ok _ =>
    match checkZ cfg.targetZ with
    | Except.error e => Except.error e
    | Except.ok _ =>
      match checkZ cfg.ejectileZ with
      | Except.error e => Except.error e
      | Except.ok _ =>
        match checkZ cfg.recoilZ with
        | Except.error e => Except.error e
        | Except.ok _ =>
          Except.ok (Reaction.mk
            (fun i => if i = 0 then cfg.promptMin else cfg.promptMax)
            (fun i => if i = 0 then cfg.randomMin else cfg.randomMax))

/-- The ISSReaction constructor (Reaction.cc lines 107-136): ReadMassTables
    runs first, then ReadReaction; any failure is exit(1) before any event
    is processed, modelled as Except.error with no Reaction value
    produced. -/
def issReaction (tbl : Option (String → ℚ)) (cfg : RConfig) :
    Except Unit Reaction :=
  match readMassTables tbl with
  | Except.error e => Except.error e
  | Except.ok _ => readReaction cfg

/-- ISSReaction::GetArrayRecoilPromptTime (Reaction.hh lines 232-236):
    i = 0 gives the lower limit, i = 1 the upper limit, anything else 0. -/
def GetArrayRecoilPromptTime (r : Reaction) (i : Nat) : ℚ :=
  if h : i < 2 then r.arrayRecoilPrompt ⟨i, h⟩ else 0

/-- ISSReaction::GetArrayRecoilRandomTime (Reaction.hh lines 238-242):
    i = 0 gives the lower limit, i = 1 the upper limit, anything else 0. -/
def GetArrayRecoilRandomTime (r : Reaction) (i : Nat) : ℚ :=
  if h : i < 2 then r.arrayRecoilRandom ⟨i, h⟩ else 0

theorem checkZ_error (z : ℤ) (h : z < 0 ∨ (gElName.length : ℤ) ≤ z) :
    checkZ z = Except.error () := by
  rw [checkZ, if_pos h]

theorem checkZ_ok (z : ℤ) (h : ¬(z < 0 ∨ (gElName.length : ℤ) ≤ z)) :
    checkZ z = Except.ok () := by
  rw [checkZ, if_neg h]

theorem readReaction_error (cfg : RConfig)
    (h : (cfg.beamZ < 0 ∨ (gElName.length : ℤ) ≤ cfg.beamZ) ∨
         (cfg.targetZ < 0 ∨ (gElName.length : ℤ) ≤ cfg.targetZ) ∨
         (cfg.ejectileZ < 0 ∨ (gElName.length : ℤ) ≤ cfg.ejectileZ) ∨
         (cfg.recoilZ < 0 ∨ (gElName.length : ℤ) ≤ cfg.recoilZ)) :
    readReaction cfg = Except.error () := by
  unfold readReaction
  rcases h with h | h | h | h
  · rw [checkZ_error _ h]
  · cases hb : checkZ cfg.beamZ with
    | error e => rfl
    | ok u => rw [checkZ_error _ h]
  · cases hb : checkZ cfg.beamZ with
    | error e => rfl
    | ok u =>
      cases ht : checkZ cfg.targetZ with
      | error e => rfl
      | ok v => rw [checkZ_error _ h]
  · cases hb : checkZ cfg.beamZ with
    | error e => rfl
    | ok u =>
      cases ht : checkZ cfg.targetZ with
      | error e => rfl
      | ok v =>
        cases hj : checkZ cfg.ejectileZ with
        | error e => rfl
        | ok w => rw [checkZ_error _ h]

theorem readReaction_ok (cfg : RConfig)
    (h1 : ¬(cfg.beamZ < 0 ∨ (gElName.length : ℤ) ≤ cfg.beamZ))
    (h2 : ¬(cfg.targetZ < 0 ∨ (gElName.length : ℤ) ≤ cfg.targetZ))
    (h3 : ¬(cfg.ejectileZ < 0 ∨ (gElName.length : ℤ) ≤ cfg.ejectileZ))
    (h4 : ¬(cfg.recoilZ < 0 ∨ (gElName.length : ℤ) ≤ cfg.recoilZ)) :
    readReaction cfg = Except.ok (Reaction.mk
      (fun i => if i = 0 then cfg.promptMin else cfg.promptMax)
      (fun i => if i = 0 then cfg.randomMin else cfg.randomMax)) := by
  unfold readReaction
  rw [checkZ_ok _ h1, checkZ_ok _ h2, checkZ_ok _ h3, checkZ_ok _ h4]

/-- C6: configuration errors are fatal at construction time: an unreadable
    mass table, or a beam, target, ejectile or recoil proton number Z
    outside the recognised range 0 ≤ Z < gElName.size(), makes the
    ISSReaction constructor (ReadMassTables then ReadReaction) terminate
    with exit(1) — modelled as Except.error, producing no Reaction value,
    so processing never starts; with a readable table and recognised Z
    values construction succeeds, and a missing recoil-cut file (a
    recoverable anomaly, only warned about) never affects the outcome. -/
theorem config_errors_fatal (tbl : Option (String → ℚ)) (cfg : RConfig) :
    (tbl = none → issReaction tbl cfg = Except.error ()) ∧
    ((cfg.beamZ < 0 ∨ (gElName.length : ℤ) ≤ cfg.beamZ) →
      issReaction tbl cfg = Except.error ()) ∧
    ((cfg.targetZ < 0 ∨ (gElName.length : ℤ) ≤ cfg.targetZ) →
      issReaction tbl cfg = Except.error ()) ∧
    ((cfg.ejectileZ < 0 ∨ (gElName.length : ℤ) ≤ cfg.ejectileZ) →
      issReaction tbl cfg = Except.error ()) ∧
    ((cfg.recoilZ < 0 ∨ (gElName.length : ℤ) ≤ cfg.recoilZ) →
      issReaction tbl cfg = Except.error ()) ∧
    (tbl ≠ none →
      ¬(cfg.beamZ < 0 ∨ (gElName.length : ℤ) ≤ cfg.beamZ) →
      ¬(cfg.targetZ < 0 ∨ (gElName.length : ℤ) ≤ cfg.targetZ) →
      ¬(cfg.ejectileZ < 0 ∨ (gElName.length : ℤ) ≤ cfg.ejectileZ) →
      ¬(cfg.recoilZ < 0 ∨ (gElName.length : ℤ) ≤ cfg.recoilZ) →
      ∃ r, issReaction tbl cfg = Except.ok r) ∧
    (∀ b1 b2 : Bool,
      issReaction tbl { cfg with recoilCutFound := b1 }
        = issReaction tbl { cfg with recoilCutFound := b2 }) := by
  have hred : ∀ t, issReaction (some t) cfg = readReaction cfg := fun t => rfl
  refine ⟨fun h => by rw [h]; rfl, ?_, ?_, ?_, ?_, ?_, ?_⟩
  · intro h
    cases tbl with
    | none => rfl
    | some t => rw [hred, readReaction_error cfg (Or.inl h)]
  · intro h
    cases tbl with
    | none => rfl
    | some t => rw [hred, readReaction_error cfg (Or.inr (Or.inl h))]
  · intro h
    cases tbl with
    | none => rfl
    | some t => rw [hred, readReaction_error cfg (Or.inr (Or.inr (Or.inl h)))]
  · intro h
    cases tbl with
    | none => rfl
    | some t => rw [hred, readReaction_error cfg (Or.inr (Or.inr (Or.inr h)))]
  · intro hne h1 h2 h3 h4
    cases tbl with
    | none => exact absurd rfl hne
    | some t =>
      exact ⟨_, by rw [hred, readReaction_ok cfg h1 h2 h3 h4]⟩
  · intro b1 b2
    cases tbl with
    | none => rfl
    | some t => rfl

/-- A concrete bad configuration: beam proton number 999 is not a
    recognised element. -/
def cfgBad : RConfig := RConfig.mk 999 1 1 12 (-300) 300 600 1200 true

/-- Concrete instance of fatal configuration errors: with beam Z = 999 the
    constructor fails before producing any Reaction value. -/
theorem config_errors_fatal_check :
    issReaction (some (fun _ => (0 : ℚ))) cfgBad = Except.error () :=
  (config_errors_fatal (some (fun _ => (0 : ℚ))) cfgBad).2.1
    (Or.inr (by norm_num [gElName, cfgBad]))

/-- C9: GetArrayRecoilPromptTime and GetArrayRecoilRandomTime are total
    over every unsigned index: for i ≥ 2 they return 0 instead of reading
    the two-element limit arrays out of bounds, while i = 0 and i = 1
    return the lower and upper limits, which ReadReaction fills from the
    configured ArrayRecoil time-window values. -/
theorem array_recoil_time_getters_total (r : Reaction) (i : Nat)
    (cfg : RConfig) :
    (2 ≤ i → GetArrayRecoilPromptTime r i = 0 ∧
             GetArrayRecoilRandomTime r i = 0) ∧
    (GetArrayRecoilPromptTime r 0 = r.arrayRecoilPrompt 0 ∧
     GetArrayRecoilPromptTime r 1 = r.arrayRecoilPrompt 1 ∧
     GetArrayRecoilRandomTime r 0 = r.arrayRecoilRandom 0 ∧
     GetArrayRecoilRandomTime r 1 = r.arrayRecoilRandom 1) ∧
    (readReaction cfg = Except.ok r →
      GetArrayRecoilPromptTime r 0 = cfg.promptMin ∧
      GetArrayRecoilPromptTime r 1 = cfg.promptMax ∧
      GetArrayRecoilRandomTime r 0 = cfg.randomMin ∧
      GetArrayRecoilRandomTime r 1 = cfg.randomMax) := by
  refine ⟨?_, ?_, ?_⟩
  · intro h2
    have hnot : ¬ i < 2 := not_lt.mpr h2
    rw [GetArrayRecoilPromptTime, dif_neg hnot,
        GetArrayRecoilRandomTime, dif_neg hnot]
    exact ⟨rfl, rfl⟩
  · exact ⟨rfl, rfl, rfl, rfl⟩
  · intro hok
    unfold readReaction at hok
    cases hb : checkZ cfg.beamZ with
    | error e =>
      simp only [hb] at hok
      exact Except.noConfusion hok
    | ok u =>
      cases ht : checkZ cfg.targetZ with
      | error e =>
        simp only [hb, ht] at hok
        exact Except.noConfusion hok
      | ok v =>
        cases hj : checkZ cfg.ejectileZ with
        | error e =>
          simp only [hb, ht, hj] at hok
          exact Except.noConfusion hok
        | ok w =>
          cases hr : checkZ cfg.recoilZ with
          | error e =>
            simp only [hb, ht, hj, hr] at hok
            exact Except.noConfusion hok
          | ok x =>
            simp only [hb, ht, hj, hr, Except.ok.injEq] at hok
            subst hok
            exact ⟨rfl, rfl, rfl, rfl⟩

/-- An example Reaction value with default window limits. -/
def rEx : Reaction := Reaction.mk (fun _ => -300) (fun _ => 300)

/-- Concrete instance of getter totality: index 2 is out of bounds of the
    two-element limit arrays and both getters return 0 there. -/
theorem array_recoil_time_getters_total_check :
    GetArrayRecoilPromptTime rEx 2 = 0 ∧ GetArrayRecoilRandomTime rEx 2 = 0 :=
  (array_recoil_time_getters_total rEx 2 cfgBad).1 (by norm_num)

/-- The recoil-selection loop of ISSHistogrammer::FillHists
    (Histogrammer.cc lines 1202-1230): walking the recoil time differences
    tdiff = recoil time − array time with accumulator (tdiff_min,
    recoil_idx), updating on the strictly smaller signed tdiff. -/
def selA (atime : ℚ) : List ℚ → Nat → ℚ → Option Nat → ℚ × Option Nat
  | [], _, m, idx => (m, idx)
  | t :: rest, k, m, idx =>
    if t - atime < m then selA atime rest (k + 1) (t - atime) (some k)
    else selA atime rest (k + 1) m idx

/-- The full selection of ISSHistogrammer::FillHists: tdiff_min starts at
    99999 and recoil_idx at −1 (modelled as none). -/
def selectRecoil (atime : ℚ) (rts : List ℚ) : ℚ × Option Nat :=
  selA atime rts 0 99999 none

/-- The gated fill of ISSHistogrammer::FillHists (lines 1234-1301): only
    the chosen recoil (recoil_idx ≥ 0) is tested for prompt coincidence and
    fills the recoil-gated histograms. -/
def recoilGatedFill (p : ℚ → Bool) (atime : ℚ) (rts : List ℚ) : Option Nat :=
  match (selectRecoil atime rts).2 with
  | none => none
  | some k => if p (rts.getD k 0 - atime) then some k else none

theorem selA_min (atime : ℚ) :
    ∀ (l : List ℚ) (k : Nat) (m : ℚ) (idx : Option Nat),
      (selA atime l k m idx).1 ≤ m ∧
      ∀ j, j < l.length → (selA atime l k m idx).1 ≤ l.getD j 0 - atime := by
  intro l
  induction l with
  | nil =>
    intro k m idx
    exact ⟨le_refl m, fun j hj => absurd hj (by simp)⟩
  | cons t rest ih =>
    intro k m idx
    by_cases hlt : t - atime < m
    · rw [selA, if_pos hlt]
      obtain ⟨ha, hb⟩ := ih (k + 1) (t - atime) (some k)
      refine ⟨le_of_lt (lt_of_le_of_lt ha hlt), ?_⟩
      intro j hj
      cases j with
      | zero => exact ha
      | succ j2 => exact hb j2 (Nat.lt_of_succ_lt_succ hj)
    · rw [selA, if_neg hlt]
      obtain ⟨ha, hb⟩ := ih (k + 1) m idx
      refine ⟨ha, ?_⟩
      intro j hj
      cases j with
      | zero => exact le_trans ha (not_lt.mp hlt)
      | succ j2 => exact hb j2 (Nat.lt_of_succ_lt_succ hj)

theorem selA_attains (atime : ℚ) :
    ∀ (l : List ℚ) (k : Nat) (m : ℚ) (idx : Option Nat),
      ((selA atime l k m idx).2 = idx ∧ (selA atime l k m idx).1 = m) ∨
      (∃ j, j < l.length ∧ (selA atime l k m idx).2 = some (k + j) ∧
        (selA atime l k m idx).1 = l.getD j 0 - atime ∧
        (selA atime l k m idx).1 < m) := by
  intro l
  induction l with
  | nil =>
    intro k m idx
    exact Or.inl ⟨rfl, rfl⟩
  | cons t rest ih =>
    intro k m idx
    by_cases hlt : t - atime < m
    · rw [selA, if_pos hlt]
      rcases ih (k + 1) (t - atime) (some k) with ⟨h2, h1⟩ | ⟨j, hj, h2, h1, hl⟩
      · refine Or.inr ⟨0, by simp, ?_, ?_, ?_⟩
        · rw [h2, Nat.add_zero]
        · exact h1
        · rw [h1]; exact hlt
      · refine Or.inr ⟨j + 1, by simpa using hj, ?_, ?_, ?_⟩
        · rw [h2]; congr 1; omega
        · exact h1
        · exact lt_trans hl hlt
    · rw [selA, if_neg hlt]
      rcases ih (k + 1) m idx with ⟨h2, h1⟩ | ⟨j, hj, h2, h1, hl⟩
      · exact Or.inl ⟨h2, h1⟩
      · refine Or.inr ⟨j + 1, by simpa using hj, ?_, ?_, ?_⟩
        · rw [h2]; congr 1; omega
        · exact h1
        · exact hl

/-- C8: the histogrammer pairs an array event with the recoil minimising
    the signed time difference recoil − array, starting from the initial
    minimum 99999 and not from the smallest absolute difference: the chosen
    index attains the minimum signed difference over all recoils; in the
    concrete instance with recoils at tdiff −5000 and +10 the far-earlier
    recoil (index 0) is chosen even though +10 is closer in absolute value;
    and only the chosen recoil is tested for prompt coincidence to fill the
    recoil-gated histograms. -/
theorem recoil_selection_signed (atime : ℚ) (rts : List ℚ) (k : Nat) :
    ((selectRecoil atime rts).2 = some k →
      k < rts.length ∧
      (selectRecoil atime rts).1 = rts.getD k 0 - atime ∧
      (selectRecoil atime rts).1 < 99999 ∧
      ∀ j, j < rts.length → (selectRecoil atime rts).1 ≤ rts.getD j 0 - atime) ∧
    ((selectRecoil 0 [-5000, 10]).2 = some 0 ∧
      ¬(|(-5000 : ℚ) - 0| ≤ |(10 : ℚ) - 0|)) ∧
    (∀ p : ℚ → Bool, recoilGatedFill p atime rts = some k →
      (selectRecoil atime rts).2 = some k ∧ p (rts.getD k 0 - atime) = true) := by
  refine ⟨?_, ⟨by norm_num [selectRecoil, selA], by norm_num⟩, ?_⟩
  · intro hsome
    rcases selA_attains atime rts 0 99999 none with ⟨h2, h1⟩ | ⟨j, hj, h2, h1, hl⟩
    · rw [selectRecoil] at hsome
      rw [h2] at hsome
      exact Option.noConfusion hsome
    · rw [selectRecoil] at hsome
      rw [hsome, Nat.zero_add] at h2
      have hk : k = j := Option.some.inj h2
      subst hk
      exact ⟨hj, h1, hl, (selA_min atime rts 0 99999 none).2⟩
  · intro p hfill
    rw [recoilGatedFill] at hfill
    cases hsel : (selectRecoil atime rts).2 with
    | none =>
      simp only [hsel] at hfill
      exact Option.noConfusion hfill
    | some k2 =>
      simp only [hsel] at hfill
      by_cases hp : p (rts.getD k2 0 - atime) = true
      · rw [if_pos hp] at hfill
        have hk : k2 = k := Option.some.inj hfill
        subst hk
        exact ⟨rfl, hp⟩
      · rw [if_neg hp] at hfill
        exact Option.noConfusion hfill

/-- Concrete instance of the signed-minimum recoil selection: the chosen
    minimum −5000 is at most the other recoil's signed difference +10. -/
theorem recoil_selection_signed_check :
    (selectRecoil 0 [-5000, 10]).1 ≤ [(-5000 : ℚ), 10].getD 1 0 - 0 :=
  ((recoil_selection_signed 0 [-5000, 10] 0).1
    (by norm_num [selectRecoil, selA])).2.2.2 1 (by norm_num)

/-- The integration loop of ISSReaction::GetEnergyLoss (Reaction.cc lines
    490-505): up to the given number of mesh steps, breaking as soon as the
    running energy falls below 100 keV, otherwise subtracting the stopping
    power at the current energy times the step dx; the stopping-power
    graph g->Eval is an abstract function argument. -/
def energyLossLoop (g : ℚ → ℚ) (dx : ℚ) : Nat → ℚ → ℚ
  | 0, E => E
  | n + 1, E => if E < 100 then E else energyLossLoop g dx n (E - g E * dx)

/-- ISSReaction::GetEnergyLoss (Reaction.cc lines 490-505): integrates the
    stopping power over Nmeshpoints = 50 steps of dist/50 and returns
    Ei − E, the initial energy minus the final integrated energy. -/
def GetEnergyLoss (Ei dist : ℚ) (g : ℚ → ℚ) : ℚ :=
  Ei - energyLossLoop g (dist / 50) 50 Ei

theorem energyLossLoop_low (g : ℚ → ℚ) (dx : ℚ) :
    ∀ (n : Nat) (E : ℚ), E < 100 → energyLossLoop g dx n E = E := by
  intro n E h
  cases n with
  | zero => rfl
  | succ m => rw [energyLossLoop, if_pos h]

theorem energyLossLoop_incr (g : ℚ → ℚ) (dx : ℚ)
    (hg : ∀ E, 0 < g E) (hdx : dx < 0) :
    ∀ (n : Nat) (E : ℚ), 100 ≤ E → 0 < n → E < energyLossLoop g dx n E := by
  intro n
  induction n with
  | zero => intro E hE h0; exact absurd h0 (lt_irrefl 0)
  | succ m ih =>
    intro E hE h0
    rw [energyLossLoop, if_neg (not_lt.mpr hE)]
    have hneg : g E * dx < 0 := mul_neg_of_pos_of_neg (hg E) hdx
    have hstep : E < E - g E * dx := by linarith
    cases Nat.eq_zero_or_pos m with
    | inl hm =>
      subst hm
      simpa [energyLossLoop] using hstep
    | inr hm =>
      exact lt_trans hstep
        (ih (E - g E * dx) (le_trans hE (le_of_lt hstep)) hm)

/-- C10: GetEnergyLoss integrates over at most 50 equal steps of dist/50,
    stopping as soon as the running energy falls below 100 keV (once below
    100 the loop leaves the energy untouched); for any initial energy below
    100 keV the returned loss is exactly 0; in all cases the result is Ei
    minus the final integrated energy; and for a negative distance (with a
    positive stopping power and Ei at least 100 keV) the returned loss is
    negative, i.e. energy is added back. -/
theorem energy_loss_spec (Ei dist : ℚ) (g : ℚ → ℚ) :
    (Ei < 100 → GetEnergyLoss Ei dist g = 0) ∧
    GetEnergyLoss Ei dist g = Ei - energyLossLoop g (dist / 50) 50 Ei ∧
    (∀ (n : Nat) (E : ℚ), E < 100 → energyLossLoop g (dist / 50) n E = E) ∧
    (dist < 0 → (∀ E, 0 < g E) → 100 ≤ Ei → GetEnergyLoss Ei dist g < 0) := by
  refine ⟨?_, rfl, fun n E h => energyLossLoop_low g _ n E h, ?_⟩
  · intro hlow
    rw [GetEnergyLoss, energyLossLoop_low g _ 50 Ei hlow, sub_self]
  · intro hdist hg hEi
    have hdx : dist / 50 < 0 := div_neg_of_neg_of_pos hdist (by norm_num)
    have hinc := energyLossLoop_incr g (dist / 50) hg hdx 50 Ei hEi (by norm_num)
    rw [GetEnergyLoss]
    linarith

/-- Concrete instances of GetEnergyLoss: an initial energy of 50 keV
    (below the 100 keV floor) loses exactly 0, and 200 keV travelling a
    negative distance through a unit stopping power gains energy (negative
    loss). -/
theorem energy_loss_spec_check :
    GetEnergyLoss 50 10 (fun _ => 1) = 0 ∧
    GetEnergyLoss 200 (-50) (fun _ => 1) < 0 :=
  ⟨(energy_loss_spec 50 10 (fun _ => 1)).1 (by norm_num),
   (energy_loss_spec 200 (-50) (fun _ => 1)).2.2.2 (by norm_num)
     (fun E => by norm_num) (by norm_num)⟩
